import Mathlib

/-!
Verification of the worker-pool and queue fragments of the go_tutorial
repository.  Each Go function that the claims touch is embedded as an
executable Lean definition; stateful code is modelled by explicit state
passing, and the concurrent worker pool is modelled as a labelled
transition system over an explicit pool state.
-/

/-- Behaviour of a Go zero-argument function `func()`: it either returns
normally or panics with a value (rendered as the panic message string). -/
inductive GoFunc where
  | returnsNormally : GoFunc
  | panics : String → GoFunc
deriving DecidableEq, Repr

namespace ErrHandling

/-- Embedding of `safeExecute(fn func()) (err error)` from
`c_03/tutorial/07_error_handling.go`: a deferred `recover()` catches a
panic and converts it into the error `fmt.Errorf("panic 捕获: %v", r)`;
a normal return yields a `nil` error (`none`). -/
def safeExecute (fn : GoFunc) : Option String :=
  match fn with
  | .returnsNormally => none
  | .panics r => some ("panic 捕获: " ++ r)

/-- Embedding of the generic slice-backed queue from
`c_03/tutorial/07_error_handling.go` (`type Queue[T any] struct { items []T }`). -/
structure Queue (T : Type) where
  items : List T
deriving DecidableEq, Repr

/-- Embedding of `NewQueue[T any]() *Queue[T]`. -/
def NewQueue (T : Type) : Queue T := ⟨[]⟩

/-- Embedding of `(q *Queue[T]) Enqueue(item T)`: append at the tail. -/
def Queue.Enqueue {T : Type} (q : Queue T) (item : T) : Queue T :=
  ⟨q.items ++ [item]⟩

/-- Embedding of `(q *Queue[T]) Dequeue() (T, bool)`: on an empty queue it
returns the zero value of `T` (modelled by `default`) and `false`, leaving
the queue unchanged; otherwise it removes and returns the head with `true`. -/
def Queue.Dequeue {T : Type} [Inhabited T] (q : Queue T) : (T × Bool) × Queue T :=
  match q.items with
  | [] => ((default, false), q)
  | item :: rest => ((item, true), ⟨rest⟩)

end ErrHandling

namespace Func

/-- Embedding of the pointer-element queue from `c_01/func.go`
(`type Queue[T any] struct { elements []*T }`); a Go pointer `*T` is
modelled as `Option T`, with `none` for `nil`. -/
structure Queue (T : Type) where
  elements : List (Option T)
deriving DecidableEq, Repr

/-- Embedding of `(obj *Queue[T]) Push(element *T)`: append at the tail. -/
def Queue.Push {T : Type} (obj : Queue T) (element : Option T) : Queue T :=
  ⟨obj.elements ++ [element]⟩

/-- Embedding of `(obj *Queue[T]) Pop() (*T, bool)`: on an empty queue it
returns `(nil, false)` leaving the queue unchanged; otherwise it removes
and returns the front pointer with `true`. -/
def Queue.Pop {T : Type} (obj : Queue T) : (Option T × Bool) × Queue T :=
  match obj.elements with
  | [] => ((none, false), obj)
  | element :: rest => ((element, true), ⟨rest⟩)

end Func

namespace Select

/-- Resolution of the `select` race in `SendChanData` between the send
case `channel <- data` and the timeout case `<-time.After(timeout)`:
either the send becomes ready before the timeout fires, or the timeout
fires first.  `time.After` always fires after the finite `timeout`, so
the `select` always resolves one way or the other. -/
inductive SelectOutcome where
  | sendReady : SelectOutcome
  | timedOut : SelectOutcome
deriving DecidableEq, Repr

/-- Embedding of `SendChanData[T ~chan TData, ...](channel T, data TData,
timeout time.Duration) bool` from `c_02/select.go`.  The channel value is
modelled by `Option Unit` (`none` is a `nil` channel); the nondeterministic
outcome of the `select` race is an explicit parameter.  A `nil` channel is
rejected up front with `false`; otherwise the function returns `true` when
the send completes and `false` when the timeout fires first. -/
def SendChanData (TData : Type) (channel : Option Unit) (_data : TData)
    (race : SelectOutcome) : Bool :=
  match channel with
  | none => false
  | some _ =>
    match race with
    | .sendReady => true
    | .timedOut => false

end Select

namespace Reflect

/-- A task submitted to the `TaskQueue` from `tutorial/09_reflect.go`: in Go
it is a bare `func()`; an identifier is attached so that the execution
history can be stated (which closure ran, and how often). -/
structure TQTask where
  id : Nat
  action : GoFunc
deriving DecidableEq, Repr

/-- State of the `TaskQueue` struct from `tutorial/09_reflect.go`:
`tasks []func()`, the `closed bool` flag, and the `done chan struct{}`
(modelled by whether `close(q.done)` has already happened; nothing is
ever sent on `done`, it is only closed). The mutex serialises accesses
and is not part of the sequential state. -/
structure TaskQueue where
  tasks : List TQTask
  closed : Bool
  doneClosed : Bool
deriving DecidableEq, Repr

/-- Embedding of `NewTaskQueue() *TaskQueue`: it takes no parameters — in
particular no worker count — and always returns a queue value; there is no
error return and no validation at construction time. -/
def NewTaskQueue : TaskQueue :=
  { tasks := [], closed := false, doneClosed := false }

/-- Embedding of `(q *TaskQueue) Submit(task func()) bool`: under the
mutex, if `q.closed` it returns `false` without touching the task list
(and without blocking); otherwise it appends the task and returns `true`. -/
def TaskQueue.Submit (q : TaskQueue) (task : TQTask) : Bool × TaskQueue :=
  if q.closed then (false, q)
  else (true, { q with tasks := q.tasks ++ [task] })

/-- How a call to `(q *TaskQueue) Run(workerCount int)` terminates. -/
inductive RunResult where
  | completed : RunResult
  | panicked : String → RunResult
  | blocked : RunResult
deriving DecidableEq, Repr

/-- The worker goroutine body in `TaskQueue.Run`:
`for task := range taskCh { task() }`.  The loop calls `task()` directly —
there is no `recover` — so a panicking task's panic escapes the loop and
kills the worker (in Go, an unrecovered panic in a goroutine crashes the
process).  Returns the ids of the tasks the worker started executing, in
order, and the panic message of the first panicking task if any; tasks
after a panicking one are never received. -/
def runWorkerLoop : List TQTask → List Nat × Option String
  | [] => ([], none)
  | t :: rest =>
    match t.action with
    | .panics msg => ([t.id], some msg)
    | .returnsNormally =>
      let r := runWorkerLoop rest
      (t.id :: r.1, r.2)

/-- Embedding of `(q *TaskQueue) Run(workerCount)` specialised to
`workerCount = 1`, where the semantics is deterministic: the single worker
receives the drained tasks from the unbuffered `taskCh` in FIFO order and
runs each with `task()`.  `Run` first drains `q.tasks` to `nil`; if no
task panics it closes `taskCh`, waits for the worker, and finally runs
`close(q.done)` — which panics with "close of closed channel" if `q.done`
was already closed by an earlier `Run`.  Returns the termination mode, the
ids executed, and the post state. -/
def TaskQueue.run1 (q : TaskQueue) : (RunResult × List Nat) × TaskQueue :=
  match runWorkerLoop q.tasks with
  | (ids, some msg) => ((.panicked msg, ids), { q with tasks := [] })
  | (ids, none) =>
    if q.doneClosed then
      ((.panicked "close of closed channel", ids), { q with tasks := [] })
    else
      ((.completed, ids), { tasks := [], closed := q.closed, doneClosed := true })

/-- Embedding of `(q *TaskQueue) Run(workerCount)` specialised to
`workerCount = 0`: the loop `for i := 0; i < workerCount; i++` starts no
workers, so the dispatch `taskCh <- task` on the unbuffered channel has no
receiver and blocks forever whenever the drained task list is nonempty;
with an empty task list the dispatch loop is skipped, `wg.Wait()` returns
at once, and `close(q.done)` runs as in `run1`. -/
def TaskQueue.run0 (q : TaskQueue) : RunResult × TaskQueue :=
  match q.tasks with
  | [] =>
    if q.doneClosed then (.panicked "close of closed channel", { q with tasks := [] })
    else (.completed, { tasks := [], closed := q.closed, doneClosed := true })
  | _ :: _ => (.blocked, { q with tasks := [] })

/-- How a call to `(q *TaskQueue) Wait()` behaves. -/
inductive WaitResult where
  | returns : WaitResult
  | blocked : WaitResult
deriving DecidableEq, Repr

/-- Embedding of `(q *TaskQueue) Wait()`, which executes `<-q.done`:
receiving from a closed channel returns immediately; before `close(q.done)`
nothing is ever sent on `done`, so the receive blocks.  `Wait` reads the
state and never mutates it, and it can never panic. -/
def TaskQueue.Wait (q : TaskQueue) : WaitResult :=
  if q.doneClosed then .returns else .blocked

end Reflect

namespace Concurrency

/-- The computation performed by `worker` in the worker-pool demo of
`05_concurrency.go`: `result := job * job`. -/
def square (job : Int) : Int := job * job

/-- A Go `chan int` as used by the worker-pool and producer/consumer demos
in `05_concurrency.go`: a FIFO buffer of pending values plus the closed
flag. -/
structure IntChan where
  buf : List Int
  closed : Bool
deriving DecidableEq, Repr

/-- Receive `v, ok := <-ch` on an `IntChan`: a buffered value is removed
from the front and returned with `ok = true`; on an empty closed channel
the receive returns the zero value `0` with `ok = false` immediately (the
exhaustion signal that ends a `range` loop); on an empty open channel the
receive blocks, modelled as `none`. -/
def IntChan.recv (c : IntChan) : Option ((Int × Bool) × IntChan) :=
  match c.buf with
  | v :: rest => some ((v, true), ⟨rest, c.closed⟩)
  | [] => if c.closed then some ((0, false), c) else none

/-- The consumer loop `for val := range ch` from the producer/consumer demo
in `05_concurrency.go`, with explicit fuel: it receives until `ok = false`
(channel closed and drained) and returns the received values in order with
the final channel state; `none` means the fuel ran out or a receive
blocked. -/
def consumeLoop : Nat → IntChan → Option (List Int × IntChan)
  | 0, _ => none
  | fuel + 1, c =>
    match c.recv with
    | some ((v, true), c2) => (consumeLoop fuel c2).map (fun r => (v :: r.1, r.2))
    | some ((_, false), c2) => some ([], c2)
    | none => none

/-- State of the worker pool from `demonstrateWorkerPool` in
`05_concurrency.go`, generalised over the queue capacity and worker count:
`jobsBuf`/`closed` are the `jobs` channel (created with `make(chan int,
cap)` and closed once by the submitter); `busy` holds the job each
currently-executing worker has claimed (one entry per busy worker — a
worker processes at most one job at a time); `results` is the result
conduit in delivery order.  `submitted`, `dequeued` and `done` are history
variables recording, in order, the jobs accepted by a send on `jobs`, the
jobs received by workers, and the jobs whose execution completed. -/
structure PoolState where
  cap : Nat
  workerCount : Nat
  jobsBuf : List Int
  closed : Bool
  busy : List Int
  results : List Int
  submitted : List Int
  dequeued : List Int
  done : List Int
deriving DecidableEq, Repr

/-- Atomic events of the worker pool: a submitter's send `jobs <- j`
completing, the submitter's `close(jobs)`, a worker's receive from `jobs`
completing, and a worker finishing the job `j` it holds (computing
`j * j` and delivering it on `results`). -/
inductive PoolEvent where
  | submit : Int → PoolEvent
  | closeJobs : PoolEvent
  | dequeue : PoolEvent
  | finish : Int → PoolEvent
deriving DecidableEq, Repr

/-- One step of the pool, `none` when the event is not enabled: a send
completes only while the channel is open and below capacity (a blocking
send simply has not happened yet otherwise; a send on a closed channel
panics and is not an event of the system); `close` happens once; a receive
requires a buffered job and an idle worker (`busy.length <
workerCount`); finishing requires the job to be held by some worker. -/
def poolStep (s : PoolState) : PoolEvent → Option PoolState
  | .submit j =>
    if s.closed = false ∧ s.jobsBuf.length < s.cap then
      some { s with jobsBuf := s.jobsBuf ++ [j], submitted := s.submitted ++ [j] }
    else none
  | .closeJobs =>
    if s.closed = false then some { s with closed := true } else none
  | .dequeue =>
    match s.jobsBuf with
    | [] => none
    | j :: rest =>
      if s.busy.length < s.workerCount then
        some { s with jobsBuf := rest, busy := s.busy ++ [j],
                      dequeued := s.dequeued ++ [j] }
      else none
  | .finish j =>
    if j ∈ s.busy then
      some { s with busy := s.busy.erase j,
                    results := s.results ++ [square j],
                    done := s.done ++ [j] }
    else none

/-- Run of the pool along a list of events; `none` if some event in the
list is not enabled when its turn comes. -/
def poolRun (s : PoolState) : List PoolEvent → Option PoolState
  | [] => some s
  | e :: es =>
    match poolStep s e with
    | none => none
    | some s2 => poolRun s2 es

/-- Initial pool state: `jobs := make(chan int, queueCapacity)` open and
empty, `workerCount` workers started and idle, nothing submitted or
executed yet. -/
def poolInit (queueCapacity workerCount : Nat) : PoolState :=
  { cap := queueCapacity, workerCount := workerCount, jobsBuf := [],
    closed := false, busy := [], results := [], submitted := [],
    dequeued := [], done := [] }

/-- The pool has fully drained after a graceful shutdown: the jobs channel
is closed and empty and every worker is idle — each worker's next receive
observes the exhaustion signal and its `range` loop exits. -/
def isTerminal (s : PoolState) : Bool :=
  s.jobsBuf.isEmpty && s.closed && s.busy.isEmpty

/-- Inductive invariant of the pool: the buffer respects the channel
capacity; at most `workerCount` jobs are claimed at once; the accepted
jobs are exactly the dequeued ones followed by the still-buffered ones (in
order — FIFO); the dequeued jobs are, up to completion order, the finished
ones plus the in-flight ones; and the result conduit carries exactly one
outcome per finished job, in completion order. -/
def poolInv (s : PoolState) : Prop :=
  s.jobsBuf.length ≤ s.cap ∧
  s.busy.length ≤ s.workerCount ∧
  s.submitted = s.dequeued ++ s.jobsBuf ∧
  s.dequeued.Perm (s.done ++ s.busy) ∧
  s.results = s.done.map square

/-- Strengthened invariant for a pool with a single worker: at most one
job is in flight and the dequeued jobs are exactly the finished ones
followed by the in-flight one, in order. -/
def singleWorkerInv (s : PoolState) : Prop :=
  s.workerCount = 1 ∧ s.dequeued = s.done ++ s.busy

/-- A concrete complete run of a two-worker pool with queue capacity 2:
two jobs are submitted and accepted, the channel is closed, and both
workers claim and finish one job each. -/
def demoEvents : List PoolEvent :=
  [.submit 1, .submit 2, .closeJobs, .dequeue, .dequeue, .finish 1, .finish 2]

/-- The state reached by `demoEvents` from `poolInit 2 2`. -/
def demoFinal : PoolState :=
  { cap := 2, workerCount := 2, jobsBuf := [], closed := true, busy := [],
    results := [1, 4], submitted := [1, 2], dequeued := [1, 2], done := [1, 2] }

/-- A concrete complete run of a single-worker pool with queue capacity 2. -/
def demoEventsSingle : List PoolEvent :=
  [.submit 3, .submit 4, .closeJobs, .dequeue, .finish 3, .dequeue, .finish 4]

/-- The state reached by `demoEventsSingle` from `poolInit 2 1`. -/
def demoFinalSingle : PoolState :=
  { cap := 2, workerCount := 1, jobsBuf := [], closed := true, busy := [],
    results := [9, 16], submitted := [3, 4], dequeued := [3, 4], done := [3, 4] }

/-- A concrete closed single-worker pool state that is not yet drained:
one job is still buffered and one is in flight. -/
def demoClosedState : PoolState :=
  { cap := 1, workerCount := 1, jobsBuf := [5], closed := true, busy := [7],
    results := [], submitted := [7, 5], dequeued := [7], done := [] }

end Concurrency

/-- C9: popping an empty generic queue (either variant) returns the zero
value of the element type (`default`, resp. `nil`/`none` for the pointer
queue) paired with `false`, never panics, and leaves the queue unchanged;
a subsequent Push/Enqueue followed by Pop/Dequeue then behaves exactly as
on a fresh queue, returning the pushed element with `true` and leaving the
queue empty. -/
theorem empty_queue_pop_returns_zero_false (T : Type) [Inhabited T]
    (q : ErrHandling.Queue T) (p : Func.Queue T) (x : T) (y : Option T)
    (hq : q.items = []) (hp : p.elements = []) :
    q.Dequeue = ((default, false), q) ∧
    p.Pop = ((none, false), p) ∧
    (q.Enqueue x).Dequeue = ((x, true), ErrHandling.NewQueue T) ∧
    (p.Push y).Pop = ((y, true), ⟨[]⟩) := by
  cases q with
  | mk items =>
    cases p with
    | mk elements =>
      subst hq
      subst hp
      refine ⟨rfl, rfl, rfl, rfl⟩

/-- Witness for C9 at a concrete queue of naturals. -/
theorem empty_queue_pop_returns_zero_false_witness :
    (ErrHandling.NewQueue Nat).Dequeue = ((default, false), ErrHandling.NewQueue Nat) ∧
    ((Func.Queue.mk []) : Func.Queue Nat).Pop = ((none, false), Func.Queue.mk []) ∧
    ((ErrHandling.NewQueue Nat).Enqueue 7).Dequeue = ((7, true), ErrHandling.NewQueue Nat) ∧
    (((Func.Queue.mk []) : Func.Queue Nat).Push (some 7)).Pop = ((some 7, true), ⟨[]⟩) :=
  empty_queue_pop_returns_zero_false Nat (ErrHandling.NewQueue Nat)
    (Func.Queue.mk []) 7 (some 7) rfl rfl

/-- C10: `SendChanData` never suspends its caller without bound: with a
`nil` channel it returns `false` immediately (the guard fires before the
`select`), and when the send cannot complete before the timeout the
timeout arm of the `select` fires and the call returns `false` instead of
blocking; every resolution of the `select` race yields a definite boolean
result. -/
theorem sendChanData_never_blocks (TData : Type) (data : TData) :
    (∀ race : Select.SelectOutcome,
        Select.SendChanData TData none data race = false) ∧
    Select.SendChanData TData (some ()) data .timedOut = false ∧
    Select.SendChanData TData (some ()) data .sendReady = true := by
  refine ⟨fun race => rfl, rfl, rfl⟩

/-- C2 counterexample: a worker of `TaskQueue.Run` calls `task()` with no
`recover`, so when the first task panics with "boom" the run ends in a
panic that escaped the worker loop, and the second task (id 1) is never
executed — its id is absent from the execution history `[0]`.  This
contradicts the claim that a panic is converted into a failure outcome
inside the worker and that the same worker then processes later tasks. -/
theorem worker_panic_propagates_counterexample :
    (Reflect.TaskQueue.run1
        { tasks := [⟨0, GoFunc.panics "boom"⟩, ⟨1, GoFunc.returnsNormally⟩],
          closed := false, doneClosed := false }).1
      = (Reflect.RunResult.panicked "boom", [0]) := by
  rfl

/-- C2 amended: panic containment exists only in `safeExecute`, which
recovers a panic into the error "panic 捕获: <msg>" and returns normally
(and returns a nil error for a normally-returning function); the
`TaskQueue.Run` worker loop invokes the task directly, so a panicking task
terminates the loop with that panic and any tasks after it are not
processed. -/
theorem safeExecute_contains_panic_worker_loop_does_not
    (msg : String) (i : Nat) (rest : List Reflect.TQTask) :
    ErrHandling.safeExecute (GoFunc.panics msg) = some ("panic 捕获: " ++ msg) ∧
    ErrHandling.safeExecute GoFunc.returnsNormally = none ∧
    Reflect.runWorkerLoop (⟨i, GoFunc.panics msg⟩ :: rest) = ([i], some msg) := by
  exact ⟨rfl, rfl, rfl⟩

/-- C6 counterexample: running the drain a second time panics.  The first
`Run` on a fresh queue completes and executes `close(q.done)`; a second
`Run` reaches its own `close(q.done)` and panics with "close of closed
channel", contradicting the claim that a repeated shutdown call never
panics. -/
theorem second_run_panics_counterexample :
    (Reflect.TaskQueue.run1 Reflect.NewTaskQueue).1.1 = Reflect.RunResult.completed ∧
    (Reflect.TaskQueue.run1 (Reflect.TaskQueue.run1 Reflect.NewTaskQueue).2).1.1
      = Reflect.RunResult.panicked "close of closed channel" := by
  exact ⟨rfl, rfl⟩

/-- C6 amended: the idempotent observer of the terminal state is `Wait`,
not `Run`: after a completed `Run`, `Wait` returns immediately (observing
the closed `done` channel) and, being a pure receive, may be called any
number of times; but calling `Run` itself a second time does not observe
the terminal state — it re-runs the transition and panics at
`close(q.done)`. -/
theorem wait_observes_terminal_second_run_panics (q : Reflect.TaskQueue)
    (h : (Reflect.TaskQueue.run1 q).1.1 = Reflect.RunResult.completed) :
    ((Reflect.TaskQueue.run1 q).2).Wait = Reflect.WaitResult.returns ∧
    (Reflect.TaskQueue.run1 (Reflect.TaskQueue.run1 q).2).1.1
      = Reflect.RunResult.panicked "close of closed channel" := by
  have hq : (Reflect.TaskQueue.run1 q).2
      = { tasks := [], closed := q.closed, doneClosed := true } := by
    rcases hr : Reflect.runWorkerLoop q.tasks with ⟨ids, p⟩
    cases p with
    | some msg =>
      simp only [Reflect.TaskQueue.run1, hr] at h
      exact Reflect.RunResult.noConfusion h
    | none =>
      by_cases hd : q.doneClosed
      · simp only [Reflect.TaskQueue.run1, hr, hd, if_true] at h
        exact Reflect.RunResult.noConfusion h
      · simp only [Reflect.TaskQueue.run1, hr, hd]
        rfl
  rw [hq]
  exact ⟨rfl, rfl⟩

/-- Witness for the amended C6 theorem at the fresh queue. -/
theorem wait_observes_terminal_second_run_panics_witness :
    ((Reflect.TaskQueue.run1 Reflect.NewTaskQueue).2).Wait = Reflect.WaitResult.returns ∧
    (Reflect.TaskQueue.run1 (Reflect.TaskQueue.run1 Reflect.NewTaskQueue).2).1.1
      = Reflect.RunResult.panicked "close of closed channel" :=
  wait_observes_terminal_second_run_panics Reflect.NewTaskQueue rfl

/-- C8 counterexample: construction never fails and never sees a worker
count.  `NewTaskQueue` unconditionally returns a usable pool value — a
`Submit` on it is accepted — and the zero-workers condition is met at
runtime instead: `Run` with `workerCount = 0` on the queue holding the
accepted task blocks forever, contradicting the claim that a zero worker
count is rejected at construction time and can never be encountered at
runtime on a successfully constructed pool. -/
theorem construction_never_rejects_counterexample :
    (Reflect.NewTaskQueue.Submit ⟨0, GoFunc.returnsNormally⟩).1 = true ∧
    (Reflect.TaskQueue.run0
        (Reflect.NewTaskQueue.Submit ⟨0, GoFunc.returnsNormally⟩).2).1
      = Reflect.RunResult.blocked := by
  exact ⟨rfl, rfl⟩

/-- C8 amended: `NewTaskQueue` takes no worker count and cannot fail, so no
configuration is validated at construction; the worker count is a parameter
of `Run`, and `Run` with `workerCount = 0` on a queue holding at least one
task starts no workers and blocks forever on the unbuffered dispatch
channel — the zero-workers condition manifests at runtime. -/
theorem run_with_zero_workers_blocks (q : Reflect.TaskQueue)
    (h : q.tasks ≠ []) :
    Reflect.NewTaskQueue = { tasks := [], closed := false, doneClosed := false } ∧
    (Reflect.TaskQueue.run0 q).1 = Reflect.RunResult.blocked := by
  refine ⟨rfl, ?_⟩
  rcases q with ⟨tasks, c, d⟩
  cases tasks with
  | nil => exact absurd rfl h
  | cons t rest => rfl

/-- Witness for the amended C8 theorem at a queue holding one task. -/
theorem run_with_zero_workers_blocks_witness :
    Reflect.NewTaskQueue = { tasks := [], closed := false, doneClosed := false } ∧
    (Reflect.TaskQueue.run0
        { tasks := [⟨0, GoFunc.returnsNormally⟩], closed := false, doneClosed := false }).1
      = Reflect.RunResult.blocked :=
  run_with_zero_workers_blocks
    { tasks := [⟨0, GoFunc.returnsNormally⟩], closed := false, doneClosed := false }
    (by simp)

namespace Concurrency

theorem poolStep_cap_workerCount {s s2 : PoolState} {e : PoolEvent}
    (h : poolStep s e = some s2) :
    s2.cap = s.cap ∧ s2.workerCount = s.workerCount := by
  cases e with
  | submit j =>
    simp only [poolStep] at h
    split_ifs at h with hc
    injection h with h
    subst h
    exact ⟨rfl, rfl⟩
  | closeJobs =>
    simp only [poolStep] at h
    split_ifs at h with hc
    injection h with h
    subst h
    exact ⟨rfl, rfl⟩
  | dequeue =>
    simp only [poolStep] at h
    rcases hbuf : s.jobsBuf with _ | ⟨j, rest⟩ <;> rw [hbuf] at h
    · exact Option.noConfusion h
    · split_ifs at h with hw
      injection h with h
      subst h
      exact ⟨rfl, rfl⟩
  | finish j =>
    simp only [poolStep] at h
    split_ifs at h with hj
    injection h with h
    subst h
    exact ⟨rfl, rfl⟩

theorem poolRun_cap_workerCount {es : List PoolEvent} {s s2 : PoolState}
    (h : poolRun s es = some s2) :
    s2.cap = s.cap ∧ s2.workerCount = s.workerCount := by
  induction es generalizing s with
  | nil =>
    simp only [poolRun] at h
    injection h with h
    subst h
    exact ⟨rfl, rfl⟩
  | cons e es ih =>
    simp only [poolRun] at h
    rcases hstep : poolStep s e with _ | s1 <;> rw [hstep] at h
    · exact Option.noConfusion h
    · obtain ⟨h1, h2⟩ := poolStep_cap_workerCount hstep
      obtain ⟨h3, h4⟩ := ih h
      exact ⟨h3.trans h1, h4.trans h2⟩

theorem poolStep_inv {s s2 : PoolState} {e : PoolEvent}
    (h : poolStep s e = some s2) (hs : poolInv s) : poolInv s2 := by
  obtain ⟨h1, h2, h3, h4, h5⟩ := hs
  cases e with
  | submit j =>
    simp only [poolStep] at h
    split_ifs at h with hc
    obtain ⟨hopen, hlen⟩ := hc
    injection h with h
    subst h
    refine ⟨?_, h2, ?_, h4, h5⟩
    · simpa using hlen
    · rw [h3, List.append_assoc]
  | closeJobs =>
    simp only [poolStep] at h
    split_ifs at h with hc
    injection h with h
    subst h
    exact ⟨h1, h2, h3, h4, h5⟩
  | dequeue =>
    simp only [poolStep] at h
    rcases hbuf : s.jobsBuf with _ | ⟨j, rest⟩ <;> rw [hbuf] at h
    · exact Option.noConfusion h
    · split_ifs at h with hw
      injection h with h
      subst h
      rw [hbuf] at h1 h3
      refine ⟨?_, ?_, ?_, ?_, h5⟩
      · dsimp only
        simp only [List.length_cons] at h1
        omega
      · dsimp only
        simp only [List.length_append, List.length_singleton]
        omega
      · rw [h3]
        simp
      · simpa [List.append_assoc] using h4.append (List.Perm.refl [j])
  | finish j =>
    simp only [poolStep] at h
    split_ifs at h with hj
    injection h with h
    subst h
    refine ⟨h1, ?_, h3, ?_, ?_⟩
    · exact le_trans (List.erase_sublist j s.busy).length_le h2
    · have hb : s.busy.Perm (j :: s.busy.erase j) := List.perm_cons_erase hj
      have heq : s.done ++ j :: s.busy.erase j = (s.done ++ [j]) ++ s.busy.erase j := by
        simp
      exact heq ▸ (h4.trans ((List.Perm.refl s.done).append hb))
    · rw [h5]
      simp

theorem poolRun_inv {es : List PoolEvent} {s s2 : PoolState}
    (h : poolRun s es = some s2) (hs : poolInv s) : poolInv s2 := by
  induction es generalizing s with
  | nil =>
    simp only [poolRun] at h
    injection h with h
    subst h
    exact hs
  | cons e es ih =>
    simp only [poolRun] at h
    rcases hstep : poolStep s e with _ | s1 <;> rw [hstep] at h
    · exact Option.noConfusion h
    · exact ih h (poolStep_inv hstep hs)

theorem poolInit_inv (queueCapacity workerCount : Nat) :
    poolInv (poolInit queueCapacity workerCount) := by
  refine ⟨by simp [poolInit], by simp [poolInit], rfl, by simp [poolInit], rfl⟩

end Concurrency

namespace Concurrency

theorem busy_singleton {l : List Int} {j : Int} (hj : j ∈ l) (hl : l.length ≤ 1) :
    l = [j] := by
  cases l with
  | nil => simp at hj
  | cons a as =>
    have has : as = [] := by
      have := List.length_eq_zero.mp (by simpa using hl)
      exact this
    subst has
    have : j = a := by simpa using hj
    subst this
    rfl

theorem poolStep_single {s s2 : PoolState} {e : PoolEvent}
    (h : poolStep s e = some s2) (hs : poolInv s) (h1 : singleWorkerInv s) :
    singleWorkerInv s2 := by
  obtain ⟨hw1, hdq⟩ := h1
  cases e with
  | submit j =>
    simp only [poolStep] at h
    split_ifs at h with hc
    injection h with h
    subst h
    exact ⟨hw1, hdq⟩
  | closeJobs =>
    simp only [poolStep] at h
    split_ifs at h with hc
    injection h with h
    subst h
    exact ⟨hw1, hdq⟩
  | dequeue =>
    simp only [poolStep] at h
    rcases hbuf : s.jobsBuf with _ | ⟨j, rest⟩ <;> rw [hbuf] at h
    · exact Option.noConfusion h
    · split_ifs at h with hw
      injection h with h
      subst h
      have hbusy : s.busy = [] := by
        rw [hw1] at hw
        exact List.length_eq_zero.mp (by omega)
      refine ⟨hw1, ?_⟩
      dsimp only
      simp [hdq, hbusy]
  | finish j =>
    simp only [poolStep] at h
    split_ifs at h with hj
    injection h with h
    subst h
    have hbusy : s.busy = [j] := busy_singleton hj (hw1 ▸ hs.2.1)
    refine ⟨hw1, ?_⟩
    dsimp only
    rw [hdq, hbusy]
    simp

theorem poolRun_single {es : List PoolEvent} {s s2 : PoolState}
    (h : poolRun s es = some s2) (hinv : poolInv s) (hs : singleWorkerInv s) :
    singleWorkerInv s2 := by
  induction es generalizing s with
  | nil =>
    simp only [poolRun] at h
    injection h with h
    subst h
    exact hs
  | cons e es ih =>
    simp only [poolRun] at h
    rcases hstep : poolStep s e with _ | s1 <;> rw [hstep] at h
    · exact Option.noConfusion h
    · exact ih h (poolStep_inv hstep hinv) (poolStep_single hstep hinv hs)

theorem pool_closed_terminates (n : Nat) :
    ∀ s : PoolState, 2 * s.jobsBuf.length + s.busy.length ≤ n →
      s.closed = true → 0 < s.workerCount →
      ∃ s2 : PoolState, ∃ events : List PoolEvent,
        poolRun s events = some s2 ∧ isTerminal s2 = true := by
  induction n with
  | zero =>
    intro s hm hc hw
    have hbuf : s.jobsBuf = [] := List.length_eq_zero.mp (by omega)
    have hbusy : s.busy = [] := List.length_eq_zero.mp (by omega)
    exact ⟨s, [], rfl, by simp [isTerminal, hbuf, hbusy, hc]⟩
  | succ m ih =>
    intro s hm hc hw
    rcases hb : s.busy with _ | ⟨b, bs⟩
    · rcases hbuf : s.jobsBuf with _ | ⟨j, rest⟩
      · exact ⟨s, [], rfl, by simp [isTerminal, hbuf, hb, hc]⟩
      · have hstep : poolStep s .dequeue = some
            { s with jobsBuf := rest, busy := s.busy ++ [j],
                     dequeued := s.dequeued ++ [j] } := by
          simp only [poolStep, hbuf]
          rw [if_pos]
          rw [hb]
          simpa using hw
        have hmeas : 2 * rest.length + (s.busy ++ [j]).length ≤ m := by
          rw [hb] at hm ⊢
          rw [hbuf] at hm
          simp only [List.length_cons, List.length_nil, List.length_append,
            List.length_singleton] at hm ⊢
          omega
        obtain ⟨s2, events, hrun, ht⟩ :=
          ih { s with jobsBuf := rest, busy := s.busy ++ [j],
                      dequeued := s.dequeued ++ [j] } hmeas hc hw
        refine ⟨s2, .dequeue :: events, ?_, ht⟩
        simp only [poolRun, hstep]
        exact hrun
    · have hmem : b ∈ s.busy := by
        rw [hb]
        exact List.mem_cons_self b bs
      have hstep : poolStep s (.finish b) = some
          { s with busy := s.busy.erase b, results := s.results ++ [square b],
                   done := s.done ++ [b] } := by
        simp only [poolStep]
        rw [if_pos hmem]
      have hmeas : 2 * s.jobsBuf.length + (s.busy.erase b).length ≤ m := by
        rw [hb] at hm
        rw [hb, List.erase_cons_head]
        simp only [List.length_cons] at hm
        omega
      obtain ⟨s2, events, hrun, ht⟩ :=
        ih { s with busy := s.busy.erase b, results := s.results ++ [square b],
                    done := s.done ++ [b] } hmeas hc hw
      refine ⟨s2, .finish b :: events, ?_, ht⟩
      simp only [poolRun, hstep]
      exact hrun

theorem consumeLoop_closed_drains (buf : List Int) :
    consumeLoop (buf.length + 1) ⟨buf, true⟩ = some (buf, ⟨[], true⟩) := by
  induction buf with
  | nil => rfl
  | cons v rest ih =>
    have hstep : consumeLoop (rest.length + 1 + 1) ⟨v :: rest, true⟩
        = (consumeLoop (rest.length + 1) ⟨rest, true⟩).map (fun r => (v :: r.1, r.2)) := rfl
    rw [List.length_cons, hstep, ih]
    rfl

end Concurrency

/-- C1: along every feasible event sequence of the worker pool that starts
from a fresh pool and ends in the drained state after a graceful shutdown
(jobs channel closed, buffer empty, all workers idle), the multiset of
executed jobs equals the multiset of accepted submissions — every accepted
job is executed exactly once, none twice, none dropped — and the result
conduit carries exactly one outcome (`job * job`) per execution. -/
theorem pool_every_accepted_task_one_outcome
    (queueCapacity workerCount : Nat) (events : List Concurrency.PoolEvent)
    (s : Concurrency.PoolState)
    (h : Concurrency.poolRun (Concurrency.poolInit queueCapacity workerCount) events
      = some s)
    (ht : Concurrency.isTerminal s = true) :
    s.done.Perm s.submitted ∧
    s.results = s.done.map Concurrency.square ∧
    s.results.length = s.submitted.length ∧
    ∀ j : Int, s.done.count j = s.submitted.count j := by
  obtain ⟨h1, h2, h3, h4, h5⟩ :=
    Concurrency.poolRun_inv h (Concurrency.poolInit_inv queueCapacity workerCount)
  simp only [Concurrency.isTerminal, Bool.and_eq_true, List.isEmpty_iff] at ht
  obtain ⟨⟨hbuf, hcl⟩, hbusy⟩ := ht
  rw [hbuf, List.append_nil] at h3
  rw [hbusy, List.append_nil] at h4
  have hperm : s.done.Perm s.submitted := by
    rw [h3]
    exact h4.symm
  refine ⟨hperm, h5, ?_, fun j => hperm.count_eq j⟩
  rw [h5, List.length_map]
  exact hperm.length_eq

/-- Witness for C1: a two-worker pool accepts jobs 1 and 2, shuts down
gracefully, and the terminal state carries one outcome per job. -/
theorem pool_every_accepted_task_one_outcome_witness :
    Concurrency.poolRun (Concurrency.poolInit 2 2) Concurrency.demoEvents
        = some Concurrency.demoFinal ∧
    Concurrency.isTerminal Concurrency.demoFinal = true ∧
    (Concurrency.demoFinal.done.Perm Concurrency.demoFinal.submitted ∧
     Concurrency.demoFinal.results
        = Concurrency.demoFinal.done.map Concurrency.square ∧
     Concurrency.demoFinal.results.length
        = Concurrency.demoFinal.submitted.length ∧
     ∀ j : Int, Concurrency.demoFinal.done.count j
        = Concurrency.demoFinal.submitted.count j) :=
  ⟨by decide, by decide,
   pool_every_accepted_task_one_outcome 2 2 Concurrency.demoEvents
     Concurrency.demoFinal (by decide) (by decide)⟩

/-- C3: along every feasible event sequence of a pool whose task queue is
the jobs channel created with capacity `queueCapacity`, the number of
buffered jobs never exceeds that capacity, and dequeueing is strict FIFO:
at every reachable state the accepted submissions are exactly the jobs
dequeued so far, in dequeue order, followed by the jobs still buffered —
so every dequeue returned the oldest buffered job. -/
theorem task_queue_capacity_bound_and_fifo
    (queueCapacity workerCount : Nat) (events : List Concurrency.PoolEvent)
    (s : Concurrency.PoolState)
    (h : Concurrency.poolRun (Concurrency.poolInit queueCapacity workerCount) events
      = some s) :
    s.jobsBuf.length ≤ queueCapacity ∧
    s.submitted = s.dequeued ++ s.jobsBuf := by
  obtain ⟨h1, _, h3, _, _⟩ :=
    Concurrency.poolRun_inv h (Concurrency.poolInit_inv queueCapacity workerCount)
  have hcap : s.cap = queueCapacity := (Concurrency.poolRun_cap_workerCount h).1
  exact ⟨hcap ▸ h1, h3⟩

/-- Witness for C3 on the concrete two-worker run. -/
theorem task_queue_capacity_bound_and_fifo_witness :
    Concurrency.poolRun (Concurrency.poolInit 2 2) Concurrency.demoEvents
        = some Concurrency.demoFinal ∧
    (Concurrency.demoFinal.jobsBuf.length ≤ 2 ∧
     Concurrency.demoFinal.submitted
        = Concurrency.demoFinal.dequeued ++ Concurrency.demoFinal.jobsBuf) :=
  ⟨by decide,
   task_queue_capacity_bound_and_fifo 2 2 Concurrency.demoEvents
     Concurrency.demoFinal (by decide)⟩

/-- C4: once the queue is closed, every Submit fails immediately without
buffering the task (the `closed` branch of `TaskQueue.Submit` returns
`false` and leaves the queue untouched, without blocking), while the
consumer-side receive loop on a closed channel still returns every task
buffered before the close, in FIFO order, before observing the exhaustion
signal that ends the loop. -/
theorem closed_queue_submit_fails_dequeue_drains
    (q : Reflect.TaskQueue) (t : Reflect.TQTask) (buf : List Int)
    (hc : q.closed = true) :
    q.Submit t = (false, q) ∧
    Concurrency.consumeLoop (buf.length + 1) ⟨buf, true⟩ = some (buf, ⟨[], true⟩) := by
  refine ⟨?_, Concurrency.consumeLoop_closed_drains buf⟩
  simp [Reflect.TaskQueue.Submit, hc]

/-- Witness for C4 at a closed queue and a three-element buffer. -/
theorem closed_queue_submit_fails_dequeue_drains_witness :
    Reflect.TaskQueue.Submit { tasks := [], closed := true, doneClosed := false }
        ⟨0, GoFunc.returnsNormally⟩
      = (false, { tasks := [], closed := true, doneClosed := false }) ∧
    Concurrency.consumeLoop 4 ⟨[1, 2, 3], true⟩ = some ([1, 2, 3], ⟨[], true⟩) :=
  closed_queue_submit_fails_dequeue_drains
    { tasks := [], closed := true, doneClosed := false }
    ⟨0, GoFunc.returnsNormally⟩ [1, 2, 3] rfl

/-- C5: in a pool with exactly one worker, every feasible event sequence
that ends drained delivers the outcomes on the result conduit in exactly
the submission order: the results are the accepted jobs' squares in the
order the jobs were accepted. -/
theorem single_worker_outcomes_in_submission_order
    (queueCapacity : Nat) (events : List Concurrency.PoolEvent)
    (s : Concurrency.PoolState)
    (h : Concurrency.poolRun (Concurrency.poolInit queueCapacity 1) events = some s)
    (ht : Concurrency.isTerminal s = true) :
    s.results = s.submitted.map Concurrency.square := by
  have hinit := Concurrency.poolInit_inv queueCapacity 1
  obtain ⟨_, _, h3, _, h5⟩ := Concurrency.poolRun_inv h hinit
  obtain ⟨hw1, hdq⟩ := Concurrency.poolRun_single h hinit ⟨rfl, rfl⟩
  simp only [Concurrency.isTerminal, Bool.and_eq_true, List.isEmpty_iff] at ht
  obtain ⟨⟨hbuf, hcl⟩, hbusy⟩ := ht
  rw [hbuf, List.append_nil] at h3
  rw [hbusy, List.append_nil] at hdq
  rw [h5, h3, hdq]

/-- Witness for C5: a single worker processes jobs 3 then 4 and the
results appear in submission order. -/
theorem single_worker_outcomes_in_submission_order_witness :
    Concurrency.poolRun (Concurrency.poolInit 2 1) Concurrency.demoEventsSingle
        = some Concurrency.demoFinalSingle ∧
    Concurrency.isTerminal Concurrency.demoFinalSingle = true ∧
    Concurrency.demoFinalSingle.results
        = Concurrency.demoFinalSingle.submitted.map Concurrency.square :=
  ⟨by decide, by decide,
   single_worker_outcomes_in_submission_order 2 Concurrency.demoEventsSingle
     Concurrency.demoFinalSingle (by decide) (by decide)⟩

/-- C7: from any closed pool state with at least one worker, the pool can
drain completely: there is a finite event sequence after which the jobs
channel is empty, every worker is idle, and any further receive on the
jobs channel immediately observes the exhaustion signal `(0, false)`
(ending the worker's `range` loop) instead of blocking — no worker remains
blocked forever after queue closure. -/
theorem worker_loops_terminate_after_close
    (s : Concurrency.PoolState) (hc : s.closed = true) (hw : 0 < s.workerCount) :
    ∃ s2 : Concurrency.PoolState, ∃ events : List Concurrency.PoolEvent,
      Concurrency.poolRun s events = some s2 ∧
      Concurrency.isTerminal s2 = true ∧
      Concurrency.IntChan.recv ⟨s2.jobsBuf, s2.closed⟩
        = some ((0, false), ⟨s2.jobsBuf, s2.closed⟩) := by
  obtain ⟨s2, events, hrun, ht⟩ :=
    Concurrency.pool_closed_terminates
      (2 * s.jobsBuf.length + s.busy.length) s le_rfl hc hw
  refine ⟨s2, events, hrun, ht, ?_⟩
  simp only [Concurrency.isTerminal, Bool.and_eq_true, List.isEmpty_iff] at ht
  obtain ⟨⟨hbuf, hcl⟩, hbusy⟩ := ht
  rw [hbuf, hcl]
  rfl

/-- Witness for C7 at a concrete closed, not yet drained, single-worker
pool state. -/
theorem worker_loops_terminate_after_close_witness :
    ∃ s2 : Concurrency.PoolState, ∃ events : List Concurrency.PoolEvent,
      Concurrency.poolRun Concurrency.demoClosedState events = some s2 ∧
      Concurrency.isTerminal s2 = true ∧
      Concurrency.IntChan.recv ⟨s2.jobsBuf, s2.closed⟩
        = some ((0, false), ⟨s2.jobsBuf, s2.closed⟩) :=
  worker_loops_terminate_after_close Concurrency.demoClosedState (by decide) (by decide)
